import Mathlib

/-!
# Skin-disease detector frontend: image codec, export builder and session state

A shallow embedding of `src/App.jsx`:

* `resizeImage`   the dimension computation of the upload path (lines 262-278),
  over exact rationals, and `resizeImageDouble`, the same computation in the
  double-precision arithmetic of JavaScript numbers;
* `dataURLtoBlob` the data-URL decoder (lines 242-252), with the platform
  functions it calls (`String.prototype.split`, the regular expression
  `/:(.*?);/`, `atob`, the `Blob` constructor) modelled after their standards;
* the component state of `App` and its handlers `startCamera`, `stopCamera`,
  `captureImage`, `handleImageUpload`, `handleDownload`, each as a function on
  an explicit state value; `step` runs one handler to its end before the next
  event, `cameraStep` lets the camera button be clicked while `startCamera` is
  suspended at `await getUserMedia`.
-/

namespace SkinDetector

/-! ## resizeImage: the dimension computation -/

/-- The width and height computed by `resizeImage` (lines 262-275) for a source
image of size `w × h`; the result is `(width, height)` as assigned to the canvas.
Numbers are exact rationals; `resizeImageDouble` is the same computation in the
double arithmetic the code runs in. -/
def resizeImage (w h maxWidth maxHeight : ℚ) : ℚ × ℚ :=
  let width := w
  let height := h
  let (width, height) :=
    if width > maxWidth then
      let ratio := maxWidth / width
      (maxWidth, height * ratio)
    else (width, height)
  if height > maxHeight then
    let ratio := maxHeight / height
    (width * ratio, maxHeight)
  else (width, height)

/-! ## resizeImage in double-precision arithmetic -/

/-- Rounding to the nearest integer, ties to the even one. -/
def roundHalfEven (x : ℚ) : ℤ :=
  if x - ⌊x⌋ < 1 / 2 then ⌊x⌋
  else if 1 / 2 < x - ⌊x⌋ then ⌊x⌋ + 1
  else if ⌊x⌋ % 2 = 0 then ⌊x⌋ else ⌊x⌋ + 1

/-- The double (IEEE 754 binary64, round to nearest, ties to even) that an exact
result `q` is stored as: 53 significant bits, and from `2 ^ (-1022)` downwards the
fixed spacing `2 ^ (-1074)` of the subnormal numbers. Overflow to `Infinity`, from
`2 ^ 1024` upwards, is not represented. -/
def toDouble (q : ℚ) : ℚ :=
  if q = 0 then 0
  else
    let e := max (Int.log 2 |q| - 52) (-1074)
    (roundHalfEven (q / 2 ^ e) : ℚ) * 2 ^ e

/-- The width and height computed by `resizeImage` (lines 262-275) in the
arithmetic of JavaScript numbers: each division and each multiplication is
rounded to a double. The arguments are doubles themselves (pixel sizes are whole
numbers). -/
def resizeImageDouble (w h maxWidth maxHeight : ℚ) : ℚ × ℚ :=
  let width := w
  let height := h
  let (width, height) :=
    if width > maxWidth then
      let ratio := toDouble (maxWidth / width)
      (maxWidth, toDouble (height * ratio))
    else (width, height)
  if height > maxHeight then
    let ratio := toDouble (maxHeight / height)
    (toDouble (width * ratio), maxHeight)
  else (width, height)

/-! ## JavaScript values used by the codec -/

deriving instance DecidableEq for Except

/-- The exceptions the embedded code can raise. -/
inductive JSError where
  /-- A property read on `null` or `undefined` (`null[1]`, `null.split`). -/
  | typeError
  /-- The `DOMException` thrown by `atob` on input that is not base64. -/
  | invalidCharacterError
  deriving DecidableEq, Repr

/-- A `Blob`: its bytes and its `type` attribute. -/
structure Blob where
  bytes : List Nat
  type : String
  deriving DecidableEq, Repr

/-- The `type` a `Blob` gets from `new Blob(parts, { type })` (File API): a type
with a character outside U+0020..U+007E becomes the empty string, any other type
is converted to ASCII lower case. -/
def blobType (t : List Char) : List Char :=
  if t.all (fun c => decide (0x20 ≤ c.toNat ∧ c.toNat ≤ 0x7E)) then t.map Char.toLower else []

/-- The expression `new Blob([u8arr], { type: mime })`. -/
def newBlob (u8arr : List Nat) (mime : List Char) : Blob :=
  { bytes := u8arr, type := String.mk (blobType mime) }

/-! ## String.prototype.split and the regular expression -/

/-- The call `s.split(sep)` for a one-character separator: the pieces of `s`
between the occurrences of `sep`, always at least one piece. -/
def split (sep : Char) : List Char → List (List Char)
  | [] => [[]]
  | c :: cs =>
    if c = sep then [] :: split sep cs
    else
      match split sep cs with
      | [] => [[c]]
      | piece :: pieces => (c :: piece) :: pieces

/-- The characters the regular-expression atom `.` does not match. -/
def isLineTerminator (c : Char) : Bool :=
  c = '\n' || c = '\r' || c = Char.ofNat 0x2028 || c = Char.ofNat 0x2029

/-- The part `(.*?);` of the regular expression, tried at the start of `s`: the
shortest run of non-line-terminators that is followed by `;`. -/
def matchGroup : List Char → Option (List Char)
  | [] => none
  | c :: cs =>
    if c = ';' then some []
    else if isLineTerminator c then none
    else (matchGroup cs).map (fun g => c :: g)

/-- The first capture group of `s.match(/:(.*?);/)`: the match is tried at each
`:` of `s` from the left, and `none` stands for the result `null`. -/
def matchMime : List Char → Option (List Char)
  | [] => none
  | c :: cs =>
    if c = ':' then
      match matchGroup cs with
      | some g => some g
      | none => matchMime cs
    else matchMime cs

/-! ## Base64 -/

/-- The base64 alphabet of RFC 4648. -/
def base64Alphabet : List Char :=
  "ABCDEFGHIJKLMNOPQRSTUVWXYZabcdefghijklmnopqrstuvwxyz0123456789+/".data

/-- The alphabet character of a 6-bit value. -/
def base64Char (i : Nat) : Char := base64Alphabet.getD i '='

/-- The 6-bit value of an alphabet character, `none` outside the alphabet. -/
def base64Index (c : Char) : Option Nat :=
  if base64Alphabet.indexOf c < 64 then some (base64Alphabet.indexOf c) else none

/-- Base64 with padding, as `canvas.toDataURL` and `FileReader.readAsDataURL`
write the payload of a data URL. -/
def base64Encode : List Nat → List Char
  | [] => []
  | [a] => [base64Char (a / 4), base64Char (a % 4 * 16), '=', '=']
  | [a, b] => [base64Char (a / 4), base64Char (a % 4 * 16 + b / 16), base64Char (b % 16 * 4), '=']
  | a :: b :: c :: rest =>
    base64Char (a / 4) :: base64Char (a % 4 * 16 + b / 16) ::
      base64Char (b % 16 * 4 + c / 64) :: base64Char (c % 64) :: base64Encode rest

/-- ASCII whitespace, which `atob` removes from its input. -/
def isAsciiWhitespace (c : Char) : Bool :=
  c = '\t' || c = '\n' || c = Char.ofNat 0x0C || c = '\r' || c = ' '

/-- Drops a final `=`, when there is one. -/
def dropFinalEquals (data : List Char) : List Char :=
  if data.getLast? = some '=' then data.dropLast else data

/-- Step 2 of forgiving-base64 decode: when the length is a multiple of 4, one or
two final `=` are removed. -/
def removePadding (data : List Char) : List Char :=
  if data.length % 4 = 0 then dropFinalEquals (dropFinalEquals data) else data

/-- The bit buffer of forgiving-base64 decode and the bytes written so far. -/
structure DecodeState where
  buffer : Nat
  bits : Nat
  output : List Nat
  deriving DecidableEq, Repr

/-- Appends the six bits of one character to the buffer; a buffer of 24 bits is
written out as three bytes, big-endian, and emptied. -/
def decodeStep (st : DecodeState) (sextet : Nat) : DecodeState :=
  let buffer := st.buffer * 64 + sextet
  let bits := st.bits + 6
  if bits = 24 then
    { buffer := 0, bits := 0,
      output := st.output ++ [buffer / 65536 % 256, buffer / 256 % 256, buffer % 256] }
  else { buffer := buffer, bits := bits, output := st.output }

/-- The end of forgiving-base64 decode: 12 bits left give one byte (the last four
bits are discarded), 18 bits left give two bytes (the last two are discarded). -/
def decodeFinish (st : DecodeState) : List Nat :=
  if st.bits = 12 then st.output ++ [st.buffer / 16 % 256]
  else if st.bits = 18 then st.output ++ [st.buffer / 4 / 256 % 256, st.buffer / 4 % 256]
  else st.output

/-- The 6-bit values of a text, `none` when a character is outside the alphabet. -/
def base64Sextets : List Char → Option (List Nat)
  | [] => some []
  | c :: cs =>
    match base64Index c, base64Sextets cs with
    | some i, some rest => some (i :: rest)
    | _, _ => none

/-- Forgiving-base64 decode (WHATWG Infra), `none` for failure. -/
def forgivingBase64Decode (data : List Char) : Option (List Nat) :=
  let data := data.filter (fun c => !isAsciiWhitespace c)
  let data := removePadding data
  if data.length % 4 = 1 then none
  else
    match base64Sextets data with
    | none => none
    | some sextets => some (decodeFinish (sextets.foldl decodeStep ⟨0, 0, []⟩))

/-- The call `atob(x)`: `x` is first converted to a string, so that `undefined`
(here `none`) is read as the text `undefined`; the result is a binary string, one
character per decoded byte. -/
def atob (x : Option (List Char)) : Except JSError (List Char) :=
  match forgivingBase64Decode (x.getD "undefined".data) with
  | none => .error .invalidCharacterError
  | some bytes => .ok (bytes.map Char.ofNat)

/-! ## dataURLtoBlob -/

/-- The call `s.charCodeAt(n)`; outside the string it is `NaN`, which a
`Uint8Array` stores as 0. -/
def charCodeAt (s : List Char) (n : Nat) : Nat :=
  match s.get? n with
  | some c => c.toNat
  | none => 0

/-- The loop `while (n--) { u8arr[n] = bstr.charCodeAt(n); }` (lines 248-250),
started with `n` iterations to go; a `Uint8Array` element keeps the value
modulo 256. -/
def fillBytes (bstr : List Char) : Nat → List Nat → List Nat
  | 0, u8arr => u8arr
  | n + 1, u8arr => fillBytes bstr n (u8arr.set n (charCodeAt bstr n % 256))

/-- The function `dataURLtoBlob` (lines 242-252). -/
def dataURLtoBlob (dataURL : String) : Except JSError Blob :=
  let arr := split ',' dataURL.data
  match matchMime (arr.headD []) with
  | none => .error .typeError
  | some mime =>
    match atob (arr.get? 1) with
    | .error e => .error e
    | .ok bstr =>
      let n := bstr.length
      let u8arr := fillBytes bstr n (List.replicate n 0)
      .ok (newBlob u8arr mime)

/-- The data URL of a byte buffer: `"data:" + m + ";base64," + base64(b)`. -/
def toDataURL (m : String) (b : List Nat) : String :=
  "data:" ++ m ++ ";base64," ++ String.mk (base64Encode b)

/-! ## The component state of `App` -/

/-- A `File` chosen in the file input. -/
structure File where
  name : String
  type : String
  deriving DecidableEq, Repr

/-- The body of a prediction response, `{ class_name, confidence_score }`; the
score is a number, taken as an exact rational. -/
structure Prediction where
  class_name : String
  confidence_score : ℚ
  deriving DecidableEq, Repr

/-- The seven `useState` cells of `App` (lines 9-15). A `MediaStream` is named by
a number; `none` is `null`. -/
structure Session where
  stream : Option Nat
  isCameraActive : Bool
  capturedImage : Option String
  selectedImage : Option File
  resizedImage : Option String
  prediction : Option Prediction
  isRetakeMode : Bool
  deriving DecidableEq, Repr

/-- The component state together with the camera device: `liveStreams` are the
streams handed out by `getUserMedia` whose tracks have not been stopped, and
`nextStream` names the stream `getUserMedia` hands out next. -/
structure World where
  session : Session
  liveStreams : List Nat
  nextStream : Nat
  deriving DecidableEq, Repr

/-- The state of a freshly mounted component. -/
def initial : World :=
  { session :=
      { stream := none, isCameraActive := false, capturedImage := none, selectedImage := none,
        resizedImage := none, prediction := none, isRetakeMode := false },
    liveStreams := [], nextStream := 0 }

/-- How the call `axios.post(".../predict", formData)` ends: the promise
resolves with a response, or it rejects (transport error, or a status that axios
turns into an error). -/
inductive PredictOutcome where
  | response (status : Nat) (data : Prediction)
  | rejected
  deriving DecidableEq, Repr

/-- The prediction a predict call delivers: the body of a response with status
200, nothing otherwise (lines 76-85 and 108-117). -/
def PredictOutcome.result : PredictOutcome → Option Prediction
  | .response status data => if status = 200 then some data else none
  | .rejected => none

/-- Truthiness of a string-or-null value: `null` and the empty string are falsy. -/
def truthy : Option String → Bool
  | none => false
  | some s => s != ""

/-- The handler `startCamera` up to its `await` (lines 27-29): the two cells are
reset and `getUserMedia` is called. -/
def startCameraBegin (w : World) : World :=
  { w with session := { w.session with selectedImage := none, resizedImage := none } }

/-- The handler `startCamera` from the point where `getUserMedia` settles: lines
32-36 with the new stream when it resolves (`granted`), the `catch` when it
throws. -/
def startCameraResume (granted : Bool) (w : World) : World :=
  if granted then
    let newStream := w.nextStream
    { session :=
        { w.session with stream := some newStream, isCameraActive := true,
                         capturedImage := none, prediction := none, isRetakeMode := false },
      liveStreams := newStream :: w.liveStreams,
      nextStream := w.nextStream + 1 }
  else w

/-- The handler `startCamera` (lines 25-40) run to its end with nothing in
between; `granted` tells whether `getUserMedia` resolves (with a new stream) or
throws. -/
def startCamera (granted : Bool) (w : World) : World :=
  startCameraResume granted (startCameraBegin w)

/-- The handler `stopCamera` (lines 42-50): stopping the tracks of `stream` takes
it out of the live streams. -/
def stopCamera (w : World) : World :=
  match w.session.stream with
  | some stream =>
    { w with
      session := { w.session with stream := none, isCameraActive := false },
      liveStreams := w.liveStreams.filter (fun live => live != stream) }
  | none => w

/-- The handler `captureImage` (lines 52-87). `capturedDataURL` is what
`canvas.toDataURL("image/jpeg")` returns and `outcome` how the predict call ends.
The `<video>` element, and with it `videoRef.current`, exists exactly when
`isCameraActive` (line 205); the canvas always exists. An exception of
`dataURLtoBlob` is caught with those of the predict call (line 83). -/
def captureImage (capturedDataURL : String) (outcome : PredictOutcome) (w : World) : World :=
  if w.session.isCameraActive then
    let w := { w with session := { w.session with capturedImage := some capturedDataURL } }
    let w := stopCamera w
    let w := { w with session := { w.session with resizedImage := some capturedDataURL } }
    match dataURLtoBlob capturedDataURL with
    | .error _ => w
    | .ok _ =>
      match outcome.result with
      | some result =>
        { w with session := { w.session with prediction := some result, isRetakeMode := true } }
      | none => w
  else w

/-- The handler `handleImageUpload` (lines 89-119). `file` is `event.target.files[0]`,
`resizedImageDataURL` what `resizeImage(file, 320, 240)` resolves with and
`outcome` how the predict call ends. An exception of `dataURLtoBlob` (line 100)
ends the handler before the predict call. -/
def handleImageUpload (file : Option File) (resizedImageDataURL : String)
    (outcome : PredictOutcome) (w : World) : World :=
  match file with
  | none => w
  | some f =>
    let w := { w with session := { w.session with selectedImage := some f, capturedImage := none,
                                                   resizedImage := some resizedImageDataURL } }
    match dataURLtoBlob resizedImageDataURL with
    | .error _ => w
    | .ok _ =>
      match outcome.result with
      | some result => { w with session := { w.session with prediction := some result } }
      | none => w

/-- What an entry of the archive holds. -/
inductive Content where
  | text (s : String)
  | blob (b : Blob)
  deriving DecidableEq, Repr

/-- What `handleDownload` hands to the browser for saving. -/
inductive SavedFile where
  | textFile (name : String) (content : String)
  | archive (name : String) (entries : List (String × Content))
  deriving DecidableEq, Repr

/-- The template literal of lines 125 and 144; `numberToString` is the conversion
of a number to a string. -/
def resultsText (numberToString : ℚ → String) (p : Prediction) : String :=
  "Prediction: " ++ p.class_name ++ "\nConfidence Score: " ++
    numberToString p.confidence_score ++ "%"

/-- The handler `handleDownload` (lines 121-168): `.ok none` when nothing is
saved, `.error` when the handler throws. In the archive branch `capturedImage`
is passed to `dataURLtoBlob` as it is, and `null.split` is a `TypeError`. -/
def handleDownload (numberToString : ℚ → String) (s : Session) :
    Except JSError (Option SavedFile) :=
  match s.prediction with
  | none => .ok none
  | some prediction =>
    match s.selectedImage with
    | some _ => .ok (some (.textFile "results.txt" (resultsText numberToString prediction)))
    | none =>
      let zip := [("results.txt", Content.text (resultsText numberToString prediction))]
      match s.capturedImage with
      | none => .error .typeError
      | some capturedImage =>
        match dataURLtoBlob capturedImage with
        | .error e => .error e
        | .ok imageBlob =>
          let zip := zip ++ [("image.jpeg", Content.blob imageBlob)]
          .ok (some (.archive "results_and_image.zip" zip))

/-- The events of the user interface. -/
inductive Event where
  /-- The camera button, `onClick={isCameraActive ? stopCamera : startCamera}`. -/
  | toggleCamera (granted : Bool)
  /-- The button "Capture Image". -/
  | capture (capturedDataURL : String) (outcome : PredictOutcome)
  /-- A change of the file input. -/
  | upload (file : Option File) (resizedImageDataURL : String) (outcome : PredictOutcome)
  /-- The button "Download Image with Results". -/
  | download
  deriving DecidableEq, Repr

/-- The condition under which the button "Capture Image" is rendered (line 230). -/
def captureVisible (s : Session) : Bool :=
  s.isCameraActive && !truthy s.capturedImage && !s.selectedImage.isSome && !truthy s.resizedImage

/-- One event of the user interface with its handler run to the end: the next
event arrives when no handler is suspended at an `await`. The camera button
clicked during such a suspension is `cameraStep`. -/
def step (w : World) : Event → World
  | .toggleCamera granted => if w.session.isCameraActive then stopCamera w else startCamera granted w
  | .capture capturedDataURL outcome =>
    if captureVisible w.session then captureImage capturedDataURL outcome w else w
  | .upload file resizedImageDataURL outcome => handleImageUpload file resizedImageDataURL outcome w
  | .download => w

/-- A sequence of events, from the left, each handler finished before the next
event. -/
def run (w : World) (events : List Event) : World :=
  events.foldl step w

/-- The component with the calls of `getUserMedia` that have not settled yet. -/
structure AsyncWorld where
  world : World
  pendingCamera : Nat
  deriving DecidableEq, Repr

/-- The camera button with the suspension of `startCamera`. -/
inductive CameraEvent where
  /-- A click on the camera button (line 177). -/
  | click
  /-- A pending call of `getUserMedia` settles and its `startCamera` runs on. -/
  | settle (granted : Bool)
  deriving DecidableEq, Repr

/-- One step of the camera button: a click runs `stopCamera`, or `startCamera` up
to its `await`, by the value of `isCameraActive` at the click; a settlement runs
the rest of a suspended `startCamera`. -/
def cameraStep (a : AsyncWorld) : CameraEvent → AsyncWorld
  | .click =>
    if a.world.session.isCameraActive then { a with world := stopCamera a.world }
    else { world := startCameraBegin a.world, pendingCamera := a.pendingCamera + 1 }
  | .settle granted =>
    if a.pendingCamera = 0 then a
    else { world := startCameraResume granted a.world, pendingCamera := a.pendingCamera - 1 }

/-- A sequence of clicks and settlements, from the left. -/
def cameraRun (a : AsyncWorld) (events : List CameraEvent) : AsyncWorld :=
  events.foldl cameraStep a

/-! ## Predicates and auxiliary functions of the proofs -/

/-- The 6-bit values of a buffer, before padding. -/
def sextetsOf : List Nat → List Nat
  | [] => []
  | [a] => [a / 4, a % 4 * 16]
  | [a, b] => [a / 4, a % 4 * 16 + b / 16, b % 16 * 4]
  | a :: b :: c :: rest =>
    a / 4 :: (a % 4 * 16 + b / 16) :: (b % 16 * 4 + c / 64) :: c % 64 :: sextetsOf rest

/-- The padding of a buffer. -/
def paddingOf : List Nat → List Char
  | [] => []
  | [_] => ['=', '=']
  | [_, _] => ['=']
  | _ :: _ :: _ :: rest => paddingOf rest

/-- A character of a MIME type that `dataURLtoBlob` hands back unchanged: printable
ASCII, no upper-case letter, no `,` and no `;`. -/
def plainMimeChar (c : Char) : Bool :=
  decide (0x20 ≤ c.toNat ∧ c.toNat ≤ 0x7E) && !decide (65 ≤ c.toNat ∧ c.toNat ≤ 90)
    && c != ',' && c != ';'

/-- The shape `data:<mime>;base64,<payload>` with a payload that base64 decoding
accepts. -/
def DataURLShape (s : String) : Prop :=
  ∃ mime payload : List Char,
    s.data = "data:".data ++ mime ++ ";base64,".data ++ payload ∧
    (forgivingBase64Decode payload).isSome = true

/-- The shape `dataURLtoBlob` checks: before the first comma a `:` and, later and
with no line terminator in between, a `;`; between the first comma and the
second (or the end) a payload that base64 decoding accepts. -/
def AcceptedShape (s : String) : Prop :=
  ∃ pre mime mid payload rest : List Char,
    s.data = pre ++ ':' :: mime ++ ';' :: mid ++ ',' :: payload ++ rest ∧
    ',' ∉ pre ++ ':' :: mime ++ ';' :: mid ∧ ',' ∉ payload ∧
    (rest = [] ∨ ∃ t, rest = ',' :: t) ∧
    (∀ c ∈ mime, isLineTerminator c = false) ∧
    (forgivingBase64Decode payload).isSome = true

/-- The camera invariant: the live streams are exactly the stream held in the
state, and `isCameraActive` tells whether one is held. -/
def CameraInv (w : World) : Prop :=
  w.liveStreams = w.session.stream.toList ∧ w.session.isCameraActive = w.session.stream.isSome

/-! ## Lemmas -/

/-! ### Double-precision rounding -/

/-- Rounding to the nearest integer moves a value by at most one half. -/
theorem roundHalfEven_err (x : ℚ) : |(roundHalfEven x : ℚ) - x| ≤ 1 / 2 := by
  have h1 : (⌊x⌋ : ℚ) ≤ x := Int.floor_le x
  have h2 : x < ⌊x⌋ + 1 := Int.lt_floor_add_one x
  unfold roundHalfEven
  rw [abs_le]
  split_ifs with c1 c2 c3
  · constructor <;> linarith
  · push_cast; constructor <;> linarith
  · constructor <;> linarith
  · push_cast; constructor <;> linarith

/-- An integer closer than one half to a value is what the value rounds to. -/
theorem roundHalfEven_unique (x : ℚ) (m : ℤ) (h : |(m : ℚ) - x| < 1 / 2) :
    roundHalfEven x = m := by
  have h1 : (⌊x⌋ : ℚ) ≤ x := Int.floor_le x
  have h2 : x < ⌊x⌋ + 1 := Int.lt_floor_add_one x
  rw [abs_lt] at h
  obtain ⟨h3, h4⟩ := h
  have h5 : (m : ℚ) < ⌊x⌋ + 2 := by linarith
  have h6 : (⌊x⌋ : ℚ) - 1 < m := by linarith
  have h5' : m < ⌊x⌋ + 2 := by exact_mod_cast h5
  have h6' : ⌊x⌋ - 1 < m := by exact_mod_cast h6
  unfold roundHalfEven
  split_ifs with c1 c2 c3
  · have : (m : ℚ) < ⌊x⌋ + 1 := by linarith
    have : m < ⌊x⌋ + 1 := by exact_mod_cast this
    omega
  · have : (⌊x⌋ : ℚ) < m := by linarith
    have : ⌊x⌋ < m := by exact_mod_cast this
    omega
  · exfalso
    have e : x - ⌊x⌋ = 1 / 2 := le_antisymm (not_lt.mp c2) (not_lt.mp c1)
    have a1 : (⌊x⌋ : ℚ) < m := by linarith
    have a2 : (m : ℚ) < ⌊x⌋ + 1 := by linarith
    have a1' : ⌊x⌋ < m := by exact_mod_cast a1
    have a2' : m < ⌊x⌋ + 1 := by exact_mod_cast a2
    omega
  · exfalso
    have e : x - ⌊x⌋ = 1 / 2 := le_antisymm (not_lt.mp c2) (not_lt.mp c1)
    have a1 : (⌊x⌋ : ℚ) < m := by linarith
    have a2 : (m : ℚ) < ⌊x⌋ + 1 := by linarith
    have a1' : ⌊x⌋ < m := by exact_mod_cast a1
    have a2' : m < ⌊x⌋ + 1 := by exact_mod_cast a2
    omega

/-- The binary exponent of a value between two consecutive powers of 2. -/
theorem log_eq_of_bounds (q : ℚ) (k : ℤ) (h1 : (2 : ℚ) ^ k ≤ q) (h2 : q < 2 ^ (k + 1)) :
    Int.log 2 |q| = k := by
  have hq : 0 < q := lt_of_lt_of_le (by positivity) h1
  rw [abs_of_pos hq]
  have a : k ≤ Int.log 2 q := (Int.zpow_le_iff_le_log (by norm_num) hq).mp (by simpa using h1)
  have b : Int.log 2 q < k + 1 := (Int.lt_zpow_iff_log_lt (by norm_num) hq).mp (by simpa using h2)
  omega

/-- The rounding error of a value in the normal range is at most 2^-53 of it. -/
theorem toDouble_err (q : ℚ) (hq : (2 : ℚ) ^ (-1022 : ℤ) ≤ q) :
    |toDouble q - q| ≤ q * 2 ^ (-53 : ℤ) := by
  have hpos : 0 < q := lt_of_lt_of_le (by positivity) hq
  have hne : q ≠ 0 := ne_of_gt hpos
  have hlog : (-1022 : ℤ) ≤ Int.log 2 |q| := by
    rw [abs_of_pos hpos]
    exact (Int.zpow_le_iff_le_log (by norm_num) hpos).mp (by simpa using hq)
  have hle : ((2 : ℕ) : ℚ) ^ Int.log 2 |q| ≤ |q| := Int.zpow_log_le_self (by norm_num) (abs_pos.mpr hne)
  rw [abs_of_pos hpos] at hle hlog
  simp only [Nat.cast_ofNat] at hle
  unfold toDouble
  rw [if_neg hne]
  simp only [abs_of_pos hpos]
  have hmax : max (Int.log 2 q - 52) (-1074) = Int.log 2 q - 52 := max_eq_left (by omega)
  rw [hmax]
  set e := Int.log 2 q - 52 with he
  have hp : (0 : ℚ) < 2 ^ e := by positivity
  have herr := roundHalfEven_err (q / 2 ^ e)
  have key : toDouble q = toDouble q := rfl
  have e1 : (roundHalfEven (q / 2 ^ e) : ℚ) * 2 ^ e - q
      = ((roundHalfEven (q / 2 ^ e) : ℚ) - q / 2 ^ e) * 2 ^ e := by
    field_simp
  rw [e1, abs_mul, abs_of_pos hp]
  have e2 : (2 : ℚ) ^ e = 2 ^ Int.log 2 q * 2 ^ (-52 : ℤ) := by
    rw [he, sub_eq_add_neg, zpow_add₀ (by norm_num)]
  have e3 : (2 : ℚ) ^ e ≤ q * 2 ^ (-52 : ℤ) := by
    rw [e2]
    exact mul_le_mul_of_nonneg_right hle (by positivity)
  calc |(roundHalfEven (q / 2 ^ e) : ℚ) - q / 2 ^ e| * 2 ^ e
      ≤ 1 / 2 * 2 ^ e := mul_le_mul_of_nonneg_right herr (le_of_lt hp)
    _ ≤ 1 / 2 * (q * 2 ^ (-52 : ℤ)) := mul_le_mul_of_nonneg_left e3 (by norm_num)
    _ = q * 2 ^ (-53 : ℤ) := by
      rw [show (-52 : ℤ) = -53 + 1 by norm_num, zpow_add₀ (by norm_num)]
      ring

/-- A value whose scaled distance to `m` is below one half rounds to `m * 2 ^ e`. -/
theorem toDouble_eq_of (q : ℚ) (e m : ℤ) (he : -1074 ≤ e) (h1 : (2 : ℚ) ^ (e + 52) ≤ q)
    (h2 : q < 2 ^ (e + 53)) (hm : |(m : ℚ) - q / 2 ^ e| < 1 / 2) :
    toDouble q = m * 2 ^ e := by
  have hpos : 0 < q := lt_of_lt_of_le (by positivity) h1
  have hlog := log_eq_of_bounds q (e + 52) h1 (by simpa [add_assoc] using h2)
  unfold toDouble
  rw [if_neg (ne_of_gt hpos)]
  simp only [hlog]
  have hmax : max (e + 52 - 52) (-1074) = e := by
    rw [add_sub_cancel_right]; exact max_eq_left he
  rw [hmax, roundHalfEven_unique _ m hm]

/-- A value in the normal range and its double differ by a factor within `1 ± 2^-53`. -/
theorem toDouble_bounds (q : ℚ) (hq : (2 : ℚ) ^ (-1022 : ℤ) ≤ q) :
    q * (1 - 2 ^ (-53 : ℤ)) ≤ toDouble q ∧ toDouble q ≤ q * (1 + 2 ^ (-53 : ℤ)) := by
  have h := toDouble_err q hq
  rw [abs_le] at h
  constructor <;> linarith [h.1, h.2]

/-- Two roundings, of the quotient `a / b` and of its product with `c`. -/
theorem scaled_bounds (a b c : ℚ) (ha : 1 ≤ a) (hb : 1 ≤ b) (hb2 : b ≤ 2 ^ (66 : ℤ))
    (hc : 1 ≤ c) :
    (1 - 2 ^ (-53 : ℤ)) ^ 2 * (c * a) ≤ toDouble (c * toDouble (a / b)) * b ∧
    toDouble (c * toDouble (a / b)) * b ≤ (1 + 2 ^ (-53 : ℤ)) ^ 2 * (c * a) := by
  have hb0 : 0 < b := by linarith
  have ha0 : 0 < a := by linarith
  have hc0 : 0 < c := by linarith
  have hu1 : (0 : ℚ) ≤ 1 - 2 ^ (-53 : ℤ) := by norm_num
  have hu2 : (1 : ℚ) / 2 ≤ 1 - 2 ^ (-53 : ℤ) := by norm_num
  have hu3 : (0 : ℚ) ≤ 1 + 2 ^ (-53 : ℤ) := by norm_num
  have hd : (2 : ℚ) ^ (-66 : ℤ) ≤ a / b := by
    rw [le_div_iff₀ hb0]
    calc (2 : ℚ) ^ (-66 : ℤ) * b ≤ 2 ^ (-66 : ℤ) * 2 ^ (66 : ℤ) :=
          mul_le_mul_of_nonneg_left hb2 (by positivity)
      _ = 1 := by norm_num
      _ ≤ a := ha
  have hd0 : 0 < a / b := div_pos ha0 hb0
  obtain ⟨r1, r2⟩ := toDouble_bounds (a / b) (le_trans (by norm_num) hd)
  have hr : (2 : ℚ) ^ (-67 : ℤ) ≤ toDouble (a / b) := by
    calc (2 : ℚ) ^ (-67 : ℤ) = 2 ^ (-66 : ℤ) * (1 / 2) := by norm_num
      _ ≤ a / b * (1 - 2 ^ (-53 : ℤ)) := mul_le_mul hd hu2 (by norm_num) (le_of_lt hd0)
      _ ≤ toDouble (a / b) := r1
  have hr0 : 0 < toDouble (a / b) := lt_of_lt_of_le (by positivity) hr
  have hcr : (2 : ℚ) ^ (-1022 : ℤ) ≤ c * toDouble (a / b) := by
    calc (2 : ℚ) ^ (-1022 : ℤ) ≤ 1 * 2 ^ (-67 : ℤ) := by norm_num
      _ ≤ c * toDouble (a / b) := mul_le_mul hc hr (by positivity) (le_of_lt hc0)
  obtain ⟨v1, v2⟩ := toDouble_bounds (c * toDouble (a / b)) hcr
  constructor
  · calc (1 - 2 ^ (-53 : ℤ)) ^ 2 * (c * a)
        = c * (a / b * (1 - 2 ^ (-53 : ℤ))) * (1 - 2 ^ (-53 : ℤ)) * b := by
          have key : ∀ u : ℚ, (1 - u) ^ 2 * (c * a) = c * (a / b * (1 - u)) * (1 - u) * b := by
            intro u; field_simp; ring
          exact key _
      _ ≤ c * toDouble (a / b) * (1 - 2 ^ (-53 : ℤ)) * b := by
          apply mul_le_mul_of_nonneg_right _ (le_of_lt hb0)
          apply mul_le_mul_of_nonneg_right _ hu1
          exact mul_le_mul_of_nonneg_left r1 (le_of_lt hc0)
      _ ≤ toDouble (c * toDouble (a / b)) * b :=
          mul_le_mul_of_nonneg_right v1 (le_of_lt hb0)
  · calc toDouble (c * toDouble (a / b)) * b
        ≤ c * toDouble (a / b) * (1 + 2 ^ (-53 : ℤ)) * b :=
          mul_le_mul_of_nonneg_right v2 (le_of_lt hb0)
      _ ≤ c * (a / b * (1 + 2 ^ (-53 : ℤ))) * (1 + 2 ^ (-53 : ℤ)) * b := by
          apply mul_le_mul_of_nonneg_right _ (le_of_lt hb0)
          apply mul_le_mul_of_nonneg_right _ hu3
          exact mul_le_mul_of_nonneg_left r2 (le_of_lt hc0)
      _ = (1 + 2 ^ (-53 : ℤ)) ^ 2 * (c * a) := by
          have key : ∀ u : ℚ, c * (a / b * (1 + u)) * (1 + u) * b = (1 + u) ^ 2 * (c * a) := by
            intro u; field_simp; ring
          exact key _

/-- From the two-sided bound with the factors `(1 - u)^2` and `(1 + u)^2` to a
relative distance of at most `2^-50`. -/
theorem close_of_bounds (x y : ℚ) (hy : 0 ≤ y)
    (h1 : (1 - 2 ^ (-53 : ℤ)) ^ 2 * x ≤ (1 + 2 ^ (-53 : ℤ)) ^ 2 * y)
    (h2 : (1 - 2 ^ (-53 : ℤ)) ^ 2 * y ≤ (1 + 2 ^ (-53 : ℤ)) ^ 2 * x) :
    |x - y| ≤ y * 2 ^ (-50 : ℤ) := by
  rw [abs_le]
  norm_num at h1 h2 ⊢
  constructor <;> linarith

/-- In double arithmetic the computed size keeps the aspect ratio up to a relative
error of `2^-50`, for sizes and bounds from 1 to `2^32`. -/
theorem resizeImageDouble_ratio (w h maxWidth maxHeight : ℚ)
    (hw : 1 ≤ w) (hw2 : w ≤ 2 ^ (32 : ℤ)) (hh : 1 ≤ h) (hh2 : h ≤ 2 ^ (32 : ℤ))
    (hmw : 1 ≤ maxWidth) (hmw2 : maxWidth ≤ 2 ^ (32 : ℤ))
    (hmh : 1 ≤ maxHeight) (_hmh2 : maxHeight ≤ 2 ^ (32 : ℤ)) :
    |(resizeImageDouble w h maxWidth maxHeight).1 * h
        - (resizeImageDouble w h maxWidth maxHeight).2 * w|
      ≤ (resizeImageDouble w h maxWidth maxHeight).2 * w * 2 ^ (-50 : ℤ) := by
  have hA1 : (1 - (2 : ℚ) ^ (-53 : ℤ)) ^ 2 ≤ 1 := by norm_num
  have hA0 : (0 : ℚ) ≤ (1 - (2 : ℚ) ^ (-53 : ℤ)) ^ 2 := by positivity
  have hB1 : 1 ≤ (1 + (2 : ℚ) ^ (-53 : ℤ)) ^ 2 := by norm_num
  have hw0 : 0 < w := by linarith
  have hh0 : 0 < h := by linarith
  have hmw0 : 0 < maxWidth := by linarith
  have hmh0 : 0 < maxHeight := by linarith
  simp only [resizeImageDouble]
  by_cases c1 : w > maxWidth
  · simp only [c1, if_true]
    obtain ⟨p1, p2⟩ := scaled_bounds maxWidth w h hmw hw (le_trans hw2 (by norm_num)) hh
    set h1 := toDouble (h * toDouble (maxWidth / w)) with h1def
    by_cases c2 : h1 > maxHeight
    · simp only [c2, if_true]
      have hh1 : 1 ≤ h1 := le_trans hmh (le_of_lt c2)
      have hh10 : 0 < h1 := by linarith
      have hh12 : h1 ≤ 2 ^ (66 : ℤ) := by
        have e1 : h1 * 1 ≤ h1 * w := mul_le_mul_of_nonneg_left hw (le_of_lt hh10)
        have e2 : h * maxWidth ≤ 2 ^ (32 : ℤ) * 2 ^ (32 : ℤ) :=
          mul_le_mul hh2 hmw2 (le_of_lt hmw0) (by positivity)
        have e3 : (1 + (2 : ℚ) ^ (-53 : ℤ)) ^ 2 * (h * maxWidth)
            ≤ 4 * (2 ^ (32 : ℤ) * 2 ^ (32 : ℤ)) :=
          mul_le_mul (by norm_num) e2 (by positivity) (by norm_num)
        calc h1 = h1 * 1 := (mul_one _).symm
          _ ≤ h1 * w := e1
          _ ≤ (1 + (2 : ℚ) ^ (-53 : ℤ)) ^ 2 * (h * maxWidth) := p2
          _ ≤ 4 * (2 ^ (32 : ℤ) * 2 ^ (32 : ℤ)) := e3
          _ = 2 ^ (66 : ℤ) := by norm_num
      obtain ⟨q1, q2⟩ := scaled_bounds maxHeight h1 maxWidth hmh hh1 hh12 hmw
      set W := toDouble (maxWidth * toDouble (maxHeight / h1)) with Wdef
      have hW0 : 0 ≤ W := by
        have : 0 ≤ W * h1 := le_trans (by positivity) q1
        exact nonneg_of_mul_nonneg_left this hh10
      have hP : 0 < h1 * w := mul_pos hh10 hw0
      apply close_of_bounds _ _ (by positivity)
      · apply le_of_mul_le_mul_right _ hP
        calc (1 - (2 : ℚ) ^ (-53 : ℤ)) ^ 2 * (W * h) * (h1 * w)
            = (1 - (2 : ℚ) ^ (-53 : ℤ)) ^ 2 * (h * w) * (W * h1) := by ring
          _ ≤ (1 - (2 : ℚ) ^ (-53 : ℤ)) ^ 2 * (h * w)
                * ((1 + (2 : ℚ) ^ (-53 : ℤ)) ^ 2 * (maxWidth * maxHeight)) :=
              mul_le_mul_of_nonneg_left q2 (by positivity)
          _ = (1 + (2 : ℚ) ^ (-53 : ℤ)) ^ 2 * (maxHeight * w)
                * ((1 - (2 : ℚ) ^ (-53 : ℤ)) ^ 2 * (h * maxWidth)) := by ring
          _ ≤ (1 + (2 : ℚ) ^ (-53 : ℤ)) ^ 2 * (maxHeight * w) * (h1 * w) :=
              mul_le_mul_of_nonneg_left p1 (by positivity)
      · apply le_of_mul_le_mul_right _ hP
        calc (1 - (2 : ℚ) ^ (-53 : ℤ)) ^ 2 * (maxHeight * w) * (h1 * w)
            ≤ (1 - (2 : ℚ) ^ (-53 : ℤ)) ^ 2 * (maxHeight * w)
                * ((1 + (2 : ℚ) ^ (-53 : ℤ)) ^ 2 * (h * maxWidth)) :=
              mul_le_mul_of_nonneg_left p2 (by positivity)
          _ = (1 + (2 : ℚ) ^ (-53 : ℤ)) ^ 2 * (h * w)
                * ((1 - (2 : ℚ) ^ (-53 : ℤ)) ^ 2 * (maxWidth * maxHeight)) := by ring
          _ ≤ (1 + (2 : ℚ) ^ (-53 : ℤ)) ^ 2 * (h * w) * (W * h1) :=
              mul_le_mul_of_nonneg_left q1 (by positivity)
          _ = (1 + (2 : ℚ) ^ (-53 : ℤ)) ^ 2 * (W * h) * (h1 * w) := by ring
    · simp only [c2, if_false]
      have hh10 : 0 ≤ h1 := by
        have : 0 ≤ h1 * w := le_trans (by positivity) p1
        exact nonneg_of_mul_nonneg_left this hw0
      have hY : 0 ≤ h1 * w := mul_nonneg hh10 (le_of_lt hw0)
      have hX : 0 ≤ maxWidth * h := by positivity
      apply close_of_bounds _ _ hY
      · calc (1 - (2 : ℚ) ^ (-53 : ℤ)) ^ 2 * (maxWidth * h)
            = (1 - (2 : ℚ) ^ (-53 : ℤ)) ^ 2 * (h * maxWidth) := by ring
          _ ≤ h1 * w := p1
          _ = 1 * (h1 * w) := (one_mul _).symm
          _ ≤ (1 + (2 : ℚ) ^ (-53 : ℤ)) ^ 2 * (h1 * w) := mul_le_mul_of_nonneg_right hB1 hY
      · calc (1 - (2 : ℚ) ^ (-53 : ℤ)) ^ 2 * (h1 * w)
            ≤ 1 * (h1 * w) := mul_le_mul_of_nonneg_right hA1 hY
          _ = h1 * w := one_mul _
          _ ≤ (1 + (2 : ℚ) ^ (-53 : ℤ)) ^ 2 * (h * maxWidth) := p2
          _ = (1 + (2 : ℚ) ^ (-53 : ℤ)) ^ 2 * (maxWidth * h) := by ring
  · simp only [c1, if_false]
    by_cases c2 : h > maxHeight
    · simp only [c2, if_true]
      obtain ⟨q1, q2⟩ := scaled_bounds maxHeight h w hmh hh (le_trans hh2 (by norm_num)) hw
      set W := toDouble (w * toDouble (maxHeight / h)) with Wdef
      have hX : 0 ≤ W * h := le_trans (by positivity) q1
      have hY : 0 ≤ maxHeight * w := by positivity
      apply close_of_bounds _ _ hY
      · calc (1 - (2 : ℚ) ^ (-53 : ℤ)) ^ 2 * (W * h)
            ≤ 1 * (W * h) := mul_le_mul_of_nonneg_right hA1 hX
          _ = W * h := one_mul _
          _ ≤ (1 + (2 : ℚ) ^ (-53 : ℤ)) ^ 2 * (w * maxHeight) := q2
          _ = (1 + (2 : ℚ) ^ (-53 : ℤ)) ^ 2 * (maxHeight * w) := by ring
      · calc (1 - (2 : ℚ) ^ (-53 : ℤ)) ^ 2 * (maxHeight * w)
            = (1 - (2 : ℚ) ^ (-53 : ℤ)) ^ 2 * (w * maxHeight) := by ring
          _ ≤ W * h := q1
          _ = 1 * (W * h) := (one_mul _).symm
          _ ≤ (1 + (2 : ℚ) ^ (-53 : ℤ)) ^ 2 * (W * h) := mul_le_mul_of_nonneg_right hB1 hX
    · simp only [c2, if_false]
      rw [mul_comm w h, sub_self, abs_zero]
      positivity

/-- The double of a value, from its exponent and its rounded significand. -/
theorem toDouble_value (q v : ℚ) (e m : ℤ) (he : -1074 ≤ e) (h1 : (2 : ℚ) ^ (e + 52) ≤ q)
    (h2 : q < 2 ^ (e + 53)) (hm1 : q / 2 ^ e - 1 / 2 < m) (hm2 : (m : ℚ) < q / 2 ^ e + 1 / 2)
    (hv : (m : ℚ) * 2 ^ e = v) :
    toDouble q = v := by
  rw [← hv]
  apply toDouble_eq_of q e m he h1 h2
  rw [abs_lt]
  constructor <;> linarith

/-- The result when only the width branch is taken. -/
theorem resizeImageDouble_width (w h maxWidth maxHeight : ℚ) (hw : w > maxWidth)
    (hh : ¬ toDouble (h * toDouble (maxWidth / w)) > maxHeight) :
    resizeImageDouble w h maxWidth maxHeight
      = (maxWidth, toDouble (h * toDouble (maxWidth / w))) := by
  simp only [resizeImageDouble, hw, if_true, hh, if_false]

/-- The result when both branches are taken. -/
theorem resizeImageDouble_both (w h maxWidth maxHeight : ℚ) (hw : w > maxWidth)
    (hh : toDouble (h * toDouble (maxWidth / w)) > maxHeight) :
    resizeImageDouble w h maxWidth maxHeight
      = (toDouble (maxWidth * toDouble (maxHeight / toDouble (h * toDouble (maxWidth / w)))),
         maxHeight) := by
  simp only [resizeImageDouble, hw, if_true, hh]

/-- In double arithmetic a 1000 × 500 source under 320 × 240 gives 320 × 160. -/
theorem resizeImageDouble_scenario_A : resizeImageDouble 1000 500 320 240 = (320, 160) := by
  have t1 : toDouble (320 / 1000) = 5764607523034235 / 18014398509481984 :=
    toDouble_value _ _ (-54) 5764607523034235 (by norm_num) (by norm_num) (by norm_num)
      (by norm_num) (by norm_num) (by norm_num)
  have t2 : toDouble (500 * (5764607523034235 / 18014398509481984)) = 160 :=
    toDouble_value _ _ (-45) 5629499534213120 (by norm_num) (by norm_num) (by norm_num)
      (by norm_num) (by norm_num) (by norm_num)
  rw [resizeImageDouble_width _ _ _ _ (by norm_num) (by rw [t1, t2]; norm_num), t1, t2]

/-- In double arithmetic a 424 × 318 source under 320 × 240 gives a width just
below 320 and the height 240. -/
theorem resizeImageDouble_424_318 :
    resizeImageDouble 424 318 320 240 = (5629499534213119 / 17592186044416, 240) := by
  have t1 : toDouble (320 / 424) = 3398943114996601 / 4503599627370496 :=
    toDouble_value _ _ (-53) 6797886229993202 (by norm_num) (by norm_num) (by norm_num)
      (by norm_num) (by norm_num) (by norm_num)
  have t2 : toDouble (318 * (3398943114996601 / 4503599627370496))
      = 8444249301319681 / 35184372088832 :=
    toDouble_value _ _ (-45) 8444249301319681 (by norm_num) (by norm_num) (by norm_num)
      (by norm_num) (by norm_num) (by norm_num)
  have t3 : toDouble (240 / (8444249301319681 / 35184372088832))
      = 9007199254740991 / 9007199254740992 :=
    toDouble_value _ _ (-53) 9007199254740991 (by norm_num) (by norm_num) (by norm_num)
      (by norm_num) (by norm_num) (by norm_num)
  have t4 : toDouble (320 * (9007199254740991 / 9007199254740992))
      = 5629499534213119 / 17592186044416 :=
    toDouble_value _ _ (-44) 5629499534213119 (by norm_num) (by norm_num) (by norm_num)
      (by norm_num) (by norm_num) (by norm_num)
  rw [resizeImageDouble_both _ _ _ _ (by norm_num) (by rw [t1, t2]; norm_num), t1, t2, t3, t4]

/-! ### Base64, split and the regular expression -/

set_option maxRecDepth 100000 in
/-- Reading an alphabet character back gives its 6-bit value. -/
theorem base64Index_base64Char : ∀ i < 64, base64Index (base64Char i) = some i := by decide

set_option maxRecDepth 100000 in
/-- An alphabet character is neither `=`, nor `,`, nor whitespace. -/
theorem base64Char_plain : ∀ i < 64,
    base64Char i ≠ '=' ∧ base64Char i ≠ ',' ∧ isAsciiWhitespace (base64Char i) = false := by
  decide

set_option maxRecDepth 100000 in
/-- The character code of a decoded byte is the byte. -/
theorem charCode_ofNat : ∀ b < 256, (Char.ofNat b).toNat % 256 = b := by decide

/-- The encoding is the characters of the 6-bit values followed by the padding. -/
theorem base64Encode_eq (b : List Nat) :
    base64Encode b = (sextetsOf b).map base64Char ++ paddingOf b := by
  induction b using base64Encode.induct with
  | case1 => rfl
  | case2 a => rfl
  | case3 a b => rfl
  | case4 a b c rest ih => simp [base64Encode, sextetsOf, paddingOf, ih]

/-- The 6-bit values of a byte buffer are below 64. -/
theorem sextetsOf_lt (b : List Nat) (hb : ∀ x ∈ b, x < 256) : ∀ s ∈ sextetsOf b, s < 64 := by
  induction b using base64Encode.induct with
  | case1 => simp [sextetsOf]
  | case2 a =>
    have := hb a (by simp)
    simp only [sextetsOf, List.mem_cons, List.mem_singleton, List.not_mem_nil, or_false]
    rintro s (rfl | rfl) <;> omega
  | case3 a b =>
    have := hb a (by simp)
    have := hb b (by simp)
    simp only [sextetsOf, List.mem_cons, List.mem_singleton, List.not_mem_nil, or_false]
    rintro s (rfl | rfl | rfl) <;> omega
  | case4 a b c rest ih =>
    have := hb a (by simp)
    have := hb b (by simp)
    have := hb c (by simp)
    have ih := ih (fun x hx => hb x (by simp [hx]))
    simp only [sextetsOf, List.mem_cons]
    rintro s (rfl | rfl | rfl | rfl | hs)
    · omega
    · omega
    · omega
    · omega
    · exact ih s hs

/-- The number of 6-bit values never leaves remainder 1 modulo 4. -/
theorem sextetsOf_length (b : List Nat) : (sextetsOf b).length % 4 ≠ 1 := by
  induction b using base64Encode.induct with
  | case1 => simp [sextetsOf]
  | case2 a => simp [sextetsOf]
  | case3 a b => simp [sextetsOf]
  | case4 a b c rest ih => simp only [sextetsOf, List.length_cons]; omega

/-- The length of an encoding is a multiple of 4. -/
theorem base64Encode_length (b : List Nat) : (base64Encode b).length % 4 = 0 := by
  induction b using base64Encode.induct with
  | case1 => simp [base64Encode]
  | case2 a => simp [base64Encode]
  | case3 a b => simp [base64Encode]
  | case4 a b c rest ih => simp only [base64Encode, List.length_cons]; omega

/-- The padding is empty, `=` or `==`. -/
theorem paddingOf_cases (b : List Nat) :
    paddingOf b = [] ∨ paddingOf b = ['='] ∨ paddingOf b = ['=', '='] := by
  induction b using base64Encode.induct with
  | case1 => simp [paddingOf]
  | case2 a => simp [paddingOf]
  | case3 a b => simp [paddingOf]
  | case4 a b c rest ih => simpa [paddingOf] using ih

/-- The bit buffer run over the 6-bit values of a buffer writes the buffer. -/
theorem decode_sextetsOf (b : List Nat) (hb : ∀ x ∈ b, x < 256) (out : List Nat) :
    decodeFinish ((sextetsOf b).foldl decodeStep ⟨0, 0, out⟩) = out ++ b := by
  induction b using base64Encode.induct generalizing out with
  | case1 => simp [sextetsOf, decodeFinish]
  | case2 a =>
    have := hb a (by simp)
    simp [sextetsOf, decodeFinish, decodeStep]
    omega
  | case3 a b =>
    have := hb a (by simp)
    have := hb b (by simp)
    simp [sextetsOf, decodeFinish, decodeStep]
    omega
  | case4 a b c rest ih =>
    have := hb a (by simp)
    have := hb b (by simp)
    have := hb c (by simp)
    have ih := ih (fun x hx => hb x (by simp [hx]))
    simp only [sextetsOf, List.foldl_cons, decodeStep]
    simp only [Nat.zero_add, Nat.zero_mul, Nat.reduceAdd, Nat.reduceEqDiff, if_false, if_true]
    rw [ih]
    simp only [List.append_assoc, List.cons_append, List.nil_append, List.append_cancel_left_eq,
      List.cons.injEq, and_true]
    refine ⟨?_, ?_, ?_⟩ <;> omega

/-- A final `=` is dropped. -/
theorem dropFinalEquals_concat (l : List Char) : dropFinalEquals (l ++ ['=']) = l := by
  simp [dropFinalEquals]

/-- A text without `=` is left as it is. -/
theorem dropFinalEquals_plain (l : List Char) (h : ∀ c ∈ l, c ≠ '=') : dropFinalEquals l = l := by
  unfold dropFinalEquals
  split
  · rename_i hl
    exact absurd rfl (h '=' (List.mem_of_getLast?_eq_some hl))
  · rfl

/-- Removing the padding of a padded text gives the text before the padding. -/
theorem removePadding_encode (body pad : List Char) (hbody : ∀ c ∈ body, c ≠ '=')
    (hpad : pad = [] ∨ pad = ['='] ∨ pad = ['=', '=']) (hlen : (body ++ pad).length % 4 = 0) :
    removePadding (body ++ pad) = body := by
  unfold removePadding
  rw [if_pos hlen]
  rcases hpad with rfl | rfl | rfl
  · rw [List.append_nil, dropFinalEquals_plain body hbody, dropFinalEquals_plain body hbody]
  · rw [dropFinalEquals_concat, dropFinalEquals_plain body hbody]
  · have : body ++ ['=', '='] = (body ++ ['=']) ++ ['='] := by simp
    rw [this, dropFinalEquals_concat, dropFinalEquals_concat]

/-- The characters of 6-bit values are read back as those values. -/
theorem base64Sextets_map (l : List Nat) (h : ∀ s ∈ l, s < 64) :
    base64Sextets (l.map base64Char) = some l := by
  induction l with
  | nil => rfl
  | cons s l ih =>
    have h1 := base64Index_base64Char s (h s (by simp))
    have h2 := ih (fun x hx => h x (by simp [hx]))
    simp [base64Sextets, h1, h2]

/-- Decoding the base64 encoding of a byte buffer gives the buffer. -/
theorem forgivingBase64Decode_encode (b : List Nat) (hb : ∀ x ∈ b, x < 256) :
    forgivingBase64Decode (base64Encode b) = some b := by
  have hs := sextetsOf_lt b hb
  have hbody : ∀ c ∈ (sextetsOf b).map base64Char, c ≠ '=' := by
    intro c hc
    obtain ⟨s, hs1, rfl⟩ := List.mem_map.mp hc
    exact (base64Char_plain s (hs s hs1)).1
  have hws : ∀ c ∈ base64Encode b, isAsciiWhitespace c = false := by
    intro c hc
    rw [base64Encode_eq, List.mem_append] at hc
    rcases hc with hc | hc
    · obtain ⟨s, hs1, rfl⟩ := List.mem_map.mp hc
      exact (base64Char_plain s (hs s hs1)).2.2
    · rcases paddingOf_cases b with h | h | h <;> rw [h] at hc <;> simp at hc <;> subst hc <;> decide
  have hfilter : (base64Encode b).filter (fun c => !isAsciiWhitespace c) = base64Encode b := by
    rw [List.filter_eq_self]
    intro c hc
    simp [hws c hc]
  have hlen := base64Encode_length b
  unfold forgivingBase64Decode
  simp only [hfilter]
  rw [base64Encode_eq] at hlen ⊢
  rw [removePadding_encode _ _ hbody (paddingOf_cases b) hlen]
  have hl : ((sextetsOf b).map base64Char).length % 4 ≠ 1 := by
    rw [List.length_map]; exact sextetsOf_length b
  rw [if_neg hl, base64Sextets_map _ hs]
  simp only [decode_sextetsOf b hb [], List.nil_append]

/-- After `k` iterations to go, the loop has written the first `k` character codes. -/
theorem fillBytes_spec (bstr : List Char) (k : Nat) (u8arr : List Nat)
    (hk : k ≤ bstr.length) (hlen : u8arr.length = bstr.length) :
    fillBytes bstr k u8arr = (bstr.take k).map (fun c => c.toNat % 256) ++ u8arr.drop k := by
  induction k generalizing u8arr with
  | zero => simp [fillBytes]
  | succ k ih =>
    have hk1 : k < bstr.length := hk
    have hk2 : k < u8arr.length := by omega
    rw [fillBytes, ih _ (Nat.le_of_lt hk1) (by simpa using hlen)]
    have h1 : ∀ v : Nat, List.drop k (u8arr.set k v) = v :: u8arr.drop (k + 1) := by
      intro v
      rw [List.drop_set, if_neg (Nat.lt_irrefl k), Nat.sub_self,
        List.drop_eq_getElem_cons hk2, List.set_cons_zero]
    have h2 : bstr.take (k + 1) = bstr.take k ++ [bstr[k]] := by
      rw [← List.take_concat_get bstr k hk1, List.concat_eq_append]
    have h3 : charCodeAt bstr k = bstr[k].toNat := by
      simp [charCodeAt, List.getElem?_eq_getElem hk1]
    rw [h1, h2, h3, List.map_append, List.append_assoc]
    rfl

/-- The whole loop writes the character codes of the binary string. -/
theorem fillBytes_all (bstr : List Char) :
    fillBytes bstr bstr.length (List.replicate bstr.length 0)
      = bstr.map (fun c => c.toNat % 256) := by
  rw [fillBytes_spec bstr _ _ (Nat.le_refl _) (by simp)]
  simp

/-- A text without the separator is a single piece. -/
theorem split_of_not_mem (sep : Char) (l : List Char) (h : sep ∉ l) : split sep l = [l] := by
  induction l with
  | nil => rfl
  | cons c cs ih =>
    have hc : c ≠ sep := fun e => h (by simp [e])
    have hcs : sep ∉ cs := fun e => h (by simp [e])
    simp [split, hc, ih hcs]

/-- The first piece ends at the first separator. -/
theorem split_append (sep : Char) (l₁ l₂ : List Char) (h : sep ∉ l₁) :
    split sep (l₁ ++ sep :: l₂) = l₁ :: split sep l₂ := by
  induction l₁ with
  | nil => simp [split]
  | cons c cs ih =>
    have hc : c ≠ sep := fun e => h (by simp [e])
    have hcs : sep ∉ cs := fun e => h (by simp [e])
    simp [split, hc, ih hcs]

/-- The first piece of a split has no separator, and the text is that piece, or that
piece, a separator and the text the other pieces are split from. -/
theorem split_spec (sep : Char) (s : List Char) :
    ∃ piece pieces, split sep s = piece :: pieces ∧ sep ∉ piece ∧
      ((s = piece ∧ pieces = []) ∨ ∃ t, s = piece ++ sep :: t ∧ pieces = split sep t) := by
  induction s with
  | nil => exact ⟨[], [], rfl, by simp, Or.inl ⟨rfl, rfl⟩⟩
  | cons c cs ih =>
    obtain ⟨piece, pieces, h1, h2, h3⟩ := ih
    by_cases hc : c = sep
    · subst hc
      exact ⟨[], split c cs, by simp [split], by simp, Or.inr ⟨cs, rfl, rfl⟩⟩
    · refine ⟨c :: piece, pieces, by simp [split, hc, h1], ?_, ?_⟩
      · simp only [List.mem_cons, not_or]
        exact ⟨fun e => hc e.symm, h2⟩
      · rcases h3 with ⟨rfl, rfl⟩ | ⟨t, rfl, rfl⟩
        · exact Or.inl ⟨rfl, rfl⟩
        · exact Or.inr ⟨t, rfl, rfl⟩

/-- The group is the text before the first `;` when that text has no line terminator. -/
theorem matchGroup_append (m rest : List Char)
    (h : ∀ c ∈ m, c ≠ ';' ∧ isLineTerminator c = false) :
    matchGroup (m ++ ';' :: rest) = some m := by
  induction m with
  | nil => simp [matchGroup]
  | cons c cs ih =>
    have hc := h c (by simp)
    have ih := ih (fun x hx => h x (by simp [hx]))
    simp [matchGroup, hc.1, hc.2, ih]

/-- A matched group is followed by `;` and has no line terminator. -/
theorem matchGroup_some (s g : List Char) (h : matchGroup s = some g) :
    ∃ mid, s = g ++ ';' :: mid ∧ ∀ c ∈ g, isLineTerminator c = false := by
  induction s generalizing g with
  | nil => simp [matchGroup] at h
  | cons c cs ih =>
    unfold matchGroup at h
    by_cases h1 : c = ';'
    · rw [if_pos h1] at h
      cases h
      exact ⟨cs, by simp [h1], by simp⟩
    · rw [if_neg h1] at h
      by_cases h2 : isLineTerminator c = true
      · rw [if_pos h2] at h
        cases h
      · rw [if_neg h2] at h
        cases hg : matchGroup cs with
        | none => rw [hg] at h; cases h
        | some g' =>
          rw [hg] at h
          cases h
          obtain ⟨mid, e, hl⟩ := ih g' hg
          refine ⟨mid, by simp [e], ?_⟩
          intro x hx
          rcases List.mem_cons.mp hx with rfl | hx
          · simpa using h2
          · exact hl x hx

/-- A match of the regular expression is a `:`, the group and a `;`. -/
theorem matchMime_some (s g : List Char) (h : matchMime s = some g) :
    ∃ pre mid, s = pre ++ ':' :: g ++ ';' :: mid ∧ ∀ c ∈ g, isLineTerminator c = false := by
  induction s with
  | nil => simp [matchMime] at h
  | cons c cs ih =>
    unfold matchMime at h
    by_cases h1 : c = ':'
    · rw [if_pos h1] at h
      cases hg : matchGroup cs with
      | some g' =>
        simp only [hg, Option.some.injEq] at h
        subst h
        obtain ⟨mid, e, hl⟩ := matchGroup_some cs g' hg
        exact ⟨[], mid, by simp [h1, e], hl⟩
      | none =>
        rw [hg] at h
        obtain ⟨pre, mid, e, hl⟩ := ih h
        exact ⟨c :: pre, mid, by simp [e], hl⟩
    · rw [if_neg h1] at h
      obtain ⟨pre, mid, e, hl⟩ := ih h
      exact ⟨c :: pre, mid, by simp [e], hl⟩

/-- What a plain MIME character is. -/
theorem plainMimeChar_spec (c : Char) (h : plainMimeChar c = true) :
    (0x20 ≤ c.toNat ∧ c.toNat ≤ 0x7E) ∧ Char.toLower c = c ∧ c ≠ ',' ∧ c ≠ ';' ∧
      isLineTerminator c = false := by
  simp only [plainMimeChar, Bool.and_eq_true, decide_eq_true_eq, Bool.not_eq_true',
    decide_eq_false_iff_not, bne_iff_ne, ne_eq] at h
  obtain ⟨⟨⟨hp, hu⟩, hc⟩, hs⟩ := h
  refine ⟨hp, ?_, hc, hs, ?_⟩
  · simp only [Char.toLower, ge_iff_le]
    rw [if_neg hu]
  · simp only [isLineTerminator, Bool.or_eq_false_iff, decide_eq_false_iff_not]
    refine ⟨⟨⟨?_, ?_⟩, ?_⟩, ?_⟩ <;> rintro rfl <;> revert hp <;> decide

/-- A plain MIME type is the `type` of the blob made with it. -/
theorem blobType_plain (m : List Char) (h : ∀ c ∈ m, plainMimeChar c = true) :
    blobType m = m := by
  have h1 : m.all (fun c => decide (0x20 ≤ c.toNat ∧ c.toNat ≤ 0x7E)) = true := by
    rw [List.all_eq_true]
    intro c hc
    exact decide_eq_true (plainMimeChar_spec c (h c hc)).1
  have h2 : m.map Char.toLower = m := by
    conv_rhs => rw [← List.map_id m]
    apply List.map_congr_left
    intro c hc
    exact (plainMimeChar_spec c (h c hc)).2.1
  rw [blobType, if_pos h1, h2]

/-- A base64 encoding has no comma. -/
theorem base64Encode_no_comma (b : List Nat) (hb : ∀ x ∈ b, x < 256) : ',' ∉ base64Encode b := by
  intro hc
  rw [base64Encode_eq, List.mem_append] at hc
  rcases hc with hc | hc
  · obtain ⟨s, hs1, hs2⟩ := List.mem_map.mp hc
    exact (base64Char_plain s (sextetsOf_lt b hb s hs1)).2.1 hs2
  · rcases paddingOf_cases b with h | h | h <;> rw [h] at hc <;> simp at hc

/-- The function `atob` on a base64 encoding gives the binary string of the buffer. -/
theorem atob_encode (b : List Nat) (hb : ∀ x ∈ b, x < 256) :
    atob (some (base64Encode b)) = .ok (b.map Char.ofNat) := by
  simp [atob, forgivingBase64Decode_encode b hb]

/-- Decoding the data URL of a buffer with a plain MIME type gives the buffer and the type. -/
theorem dataURLtoBlob_toDataURL (m : String) (b : List Nat) (hb : ∀ x ∈ b, x < 256)
    (hm : ∀ c ∈ m.data, plainMimeChar c = true) :
    dataURLtoBlob (toDataURL m b) = .ok { bytes := b, type := m } := by
  have hcomma : ',' ∉ "data:".data ++ m.data ++ ";base64".data := by
    simp only [List.mem_append, not_or]
    refine ⟨⟨by decide, ?_⟩, by decide⟩
    intro hc
    exact (plainMimeChar_spec _ (hm _ hc)).2.2.1 rfl
  have hdata : (toDataURL m b).data
      = ("data:".data ++ m.data ++ ";base64".data) ++ ',' :: base64Encode b := by
    simp [toDataURL]
  have hmime : matchMime ("data:".data ++ m.data ++ ";base64".data) = some m.data := by
    have hg := matchGroup_append m.data "base64".data (fun c hc =>
      ⟨(plainMimeChar_spec c (hm c hc)).2.2.2.1, (plainMimeChar_spec c (hm c hc)).2.2.2.2⟩)
    have e : "data:".data ++ m.data ++ ";base64".data
        = 'd' :: 'a' :: 't' :: 'a' :: ':' :: (m.data ++ ';' :: "base64".data) := by simp
    rw [e]
    simp [matchMime, hg]
  have hfill : ∀ l : List Nat, (∀ x ∈ l, x < 256) →
      (l.map Char.ofNat).map (fun c => c.toNat % 256) = l := by
    intro l hl
    rw [List.map_map]
    conv_rhs => rw [← List.map_id l]
    apply List.map_congr_left
    intro x hx
    exact charCode_ofNat x (hl x hx)
  unfold dataURLtoBlob
  simp only [hdata, split_append _ _ _ hcomma,
    split_of_not_mem _ _ (base64Encode_no_comma b hb), List.headD_cons, hmime]
  simp only [List.get?_cons_succ, List.get?_cons_zero, atob_encode b hb, fillBytes_all,
    hfill b hb, newBlob, blobType_plain _ hm]

/-- The call `atob(undefined)` throws. -/
theorem atob_undefined : atob none = .error .invalidCharacterError := by decide

/-- The component state after `handleImageUpload` with a file. -/
theorem handleImageUpload_session (file : File) (resized : String) (outcome : PredictOutcome)
    (w : World) :
    (handleImageUpload (some file) resized outcome w).session =
      { w.session with
        selectedImage := some file, capturedImage := none, resizedImage := some resized,
        prediction :=
          match dataURLtoBlob resized, outcome.result with
          | .ok _, some result => some result
          | _, _ => w.session.prediction } := by
  unfold handleImageUpload
  cases dataURLtoBlob resized <;> cases outcome.result <;> rfl

/-- The handler `handleImageUpload` touches neither the camera device nor the stream cells. -/
theorem handleImageUpload_device (file : Option File) (resized : String)
    (outcome : PredictOutcome) (w : World) :
    (handleImageUpload file resized outcome w).liveStreams = w.liveStreams ∧
    (handleImageUpload file resized outcome w).nextStream = w.nextStream ∧
    (handleImageUpload file resized outcome w).session.stream = w.session.stream ∧
    (handleImageUpload file resized outcome w).session.isCameraActive
      = w.session.isCameraActive := by
  unfold handleImageUpload
  cases file with
  | none => simp
  | some f => cases dataURLtoBlob resized <;> cases outcome.result <;> simp

/-- The component state after `captureImage` with the camera active. -/
theorem captureImage_session (url : String) (outcome : PredictOutcome) (w : World)
    (h : w.session.isCameraActive = true) :
    (captureImage url outcome w).session =
      { (stopCamera w).session with
        capturedImage := some url, resizedImage := some url,
        prediction :=
          match dataURLtoBlob url, outcome.result with
          | .ok _, some result => some result
          | _, _ => w.session.prediction,
        isRetakeMode :=
          match dataURLtoBlob url, outcome.result with
          | .ok _, some _ => true
          | _, _ => w.session.isRetakeMode } := by
  obtain ⟨⟨stream, active, captured, selected, resized, prediction, retake⟩, live, next⟩ := w
  simp only at h
  subst h
  unfold captureImage stopCamera
  cases stream <;> cases dataURLtoBlob url <;> cases outcome.result <;> rfl

/-- The invariant holds at mount. -/
theorem cameraInv_initial : CameraInv initial := ⟨rfl, rfl⟩

/-- The handler `stopCamera` keeps the invariant. -/
theorem cameraInv_stopCamera (w : World) (h : CameraInv w) : CameraInv (stopCamera w) := by
  obtain ⟨⟨stream, active, captured, selected, resized, prediction, retake⟩, live, next⟩ := w
  obtain ⟨h1, h2⟩ := h
  simp only at h1 h2
  subst h1 h2
  cases stream with
  | none => exact ⟨rfl, rfl⟩
  | some st => exact ⟨by simp [stopCamera], rfl⟩

/-- Every event keeps the invariant. -/
theorem cameraInv_step (w : World) (e : Event) (h : CameraInv w) : CameraInv (step w e) := by
  cases e with
  | toggleCamera granted =>
    simp only [step]
    by_cases ha : w.session.isCameraActive = true
    · rw [if_pos ha]
      exact cameraInv_stopCamera w h
    · rw [if_neg ha]
      obtain ⟨⟨stream, active, captured, selected, resized, prediction, retake⟩, live, next⟩ := w
      obtain ⟨h1, h2⟩ := h
      simp only at h1 h2 ha
      subst h1
      cases stream with
      | some st => simp [h2] at ha
      | none =>
        cases granted <;>
          simp [startCamera, startCameraBegin, startCameraResume, CameraInv, h2]
  | capture url outcome =>
    simp only [step]
    split
    · rename_i hv
      have ha : w.session.isCameraActive = true := by
        simp only [captureVisible, Bool.and_eq_true] at hv
        exact hv.1.1.1
      have hs := cameraInv_stopCamera w h
      have hc := captureImage_session url outcome w ha
      have hl : (captureImage url outcome w).liveStreams = (stopCamera w).liveStreams := by
        obtain ⟨⟨stream, active, captured, selected, resized, prediction, retake⟩, live, next⟩ := w
        simp only at ha
        subst ha
        unfold captureImage stopCamera
        cases stream <;> cases dataURLtoBlob url <;> cases outcome.result <;> rfl
      unfold CameraInv at hs ⊢
      rw [hl, hc]
      exact hs
    · exact h
  | upload file resized outcome =>
    obtain ⟨h1, _, h3, h4⟩ := handleImageUpload_device file resized outcome w
    simp only [step, CameraInv, h1, h3, h4]
    exact h
  | download => exact h

/-- Every sequence of events keeps the invariant. -/
theorem cameraInv_run (events : List Event) (w : World) (h : CameraInv w) :
    CameraInv (run w events) := by
  induction events generalizing w with
  | nil => exact h
  | cons e es ih => exact ih (step w e) (cameraInv_step w e h)

/-- When every handler has finished before the next event, the number of live
camera streams is 0 or 1, and it is 1 exactly when `stream` is non-null and
`isCameraActive` is true. -/
theorem cameraInv_sequential (events : List Event) :
    ((run initial events).liveStreams.length = 0 ∨ (run initial events).liveStreams.length = 1) ∧
    ((run initial events).liveStreams.length = 1 ↔
      ((run initial events).session.stream ≠ none ∧
        (run initial events).session.isCameraActive = true)) := by
  obtain ⟨h1, h2⟩ := cameraInv_run events initial cameraInv_initial
  rw [h1, h2]
  cases (run initial events).session.stream <;> simp

/-- Run to its end with nothing in between, `startCamera` is its two halves. -/
theorem startCamera_eq (granted : Bool) (w : World) :
    startCamera granted w = startCameraResume granted (startCameraBegin w) := rfl

/-! ## Theorems -/

/-- C1: for a source image of positive size and positive bounds, a source wider
than `maxWidth` is resized to a width at most `maxWidth` and a height at most
`maxHeight`. -/
theorem resizeImage_within_bounds (w h maxWidth maxHeight : ℚ)
    (hw : 0 < w) (hh : 0 < h) (hmw : 0 < maxWidth) (_hmh : 0 < maxHeight)
    (hwide : w > maxWidth) :
    (resizeImage w h maxWidth maxHeight).1 ≤ maxWidth ∧
    (resizeImage w h maxWidth maxHeight).2 ≤ maxHeight := by
  have hpos : 0 < h * (maxWidth / w) := mul_pos hh (div_pos hmw hw)
  simp only [resizeImage, hwide, if_true]
  by_cases hc : h * (maxWidth / w) > maxHeight
  · simp only [hc, if_true, le_refl, and_true]
    have hr : maxHeight / (h * (maxWidth / w)) ≤ 1 :=
      (div_le_one hpos).mpr (le_of_lt hc)
    calc maxWidth * (maxHeight / (h * (maxWidth / w)))
        ≤ maxWidth * 1 := mul_le_mul_of_nonneg_left hr (le_of_lt hmw)
      _ = maxWidth := mul_one _
  · simp only [hc, if_false, le_refl, true_and]
    exact not_lt.mp hc

/-- The bounds hold for a 1000 × 500 source under the bounds 320 × 240. -/
theorem resizeImage_within_bounds_witness :
    ((0 : ℚ) < 1000 ∧ (0 : ℚ) < 500 ∧ (0 : ℚ) < 320 ∧ (0 : ℚ) < 240 ∧ (1000 : ℚ) > 320) ∧
    (resizeImage 1000 500 320 240).1 ≤ 320 ∧ (resizeImage 1000 500 320 240).2 ≤ 240 :=
  ⟨by norm_num,
   resizeImage_within_bounds 1000 500 320 240 (by norm_num) (by norm_num) (by norm_num)
    (by norm_num) (by norm_num)⟩

/-- C2, counterexample: for a 424 × 318 source under the bounds 320 × 240 the
code computes the width 5629499534213119 / 2^44 (printed 319.99999999999994) and
the height 240, and `W * h = H * w` fails for them. -/
theorem resizeImageDouble_ratio_not_exact :
    resizeImageDouble 424 318 320 240 = (5629499534213119 / 17592186044416, 240) ∧
    (resizeImageDouble 424 318 320 240).1 * 318
      ≠ (resizeImageDouble 424 318 320 240).2 * 424 := by
  rw [resizeImageDouble_424_318]
  norm_num

/-- C2 (amended): for sizes and bounds from 1 to `2^32` the size computed in double
arithmetic, of width `W` and height `H`, keeps the aspect ratio within rounding,
`|W * h - H * w| ≤ H * w / 2^50`, whichever branches are taken; a source that fits
is returned as it is; and a 1000 × 500 source under the bounds 320 × 240 gives
exactly 320 × 160. -/
theorem resizeImageDouble_aspect_ratio (w h maxWidth maxHeight : ℚ)
    (hw : 1 ≤ w) (hw2 : w ≤ 2 ^ 32) (hh : 1 ≤ h) (hh2 : h ≤ 2 ^ 32)
    (hmw : 1 ≤ maxWidth) (hmw2 : maxWidth ≤ 2 ^ 32)
    (hmh : 1 ≤ maxHeight) (hmh2 : maxHeight ≤ 2 ^ 32) :
    |(resizeImageDouble w h maxWidth maxHeight).1 * h
        - (resizeImageDouble w h maxWidth maxHeight).2 * w|
      ≤ (resizeImageDouble w h maxWidth maxHeight).2 * w / 2 ^ 50 ∧
    (w ≤ maxWidth → h ≤ maxHeight → resizeImageDouble w h maxWidth maxHeight = (w, h)) ∧
    resizeImageDouble 1000 500 320 240 = (320, 160) := by
  refine ⟨?_, ?_, resizeImageDouble_scenario_A⟩
  · have e32 : (2 : ℚ) ^ 32 ≤ 2 ^ (32 : ℤ) := by norm_num
    have key := resizeImageDouble_ratio w h maxWidth maxHeight hw (le_trans hw2 e32) hh
      (le_trans hh2 e32) hmw (le_trans hmw2 e32) hmh (le_trans hmh2 e32)
    have e : ((2 : ℚ) ^ (-50 : ℤ)) = 1 / 2 ^ 50 := by norm_num
    rw [e] at key
    rw [div_eq_mul_one_div]
    exact key
  · intro h1 h2
    simp only [resizeImageDouble, gt_iff_lt, not_lt.mpr h1, if_false, not_lt.mpr h2]

/-- The bound for a 424 × 318 source under the bounds 320 × 240, where both
branches are taken and the width is rounded. -/
theorem resizeImageDouble_aspect_ratio_witness :
    ((1 : ℚ) ≤ 424 ∧ (424 : ℚ) ≤ 2 ^ 32 ∧ (1 : ℚ) ≤ 318 ∧ (318 : ℚ) ≤ 2 ^ 32 ∧
      (1 : ℚ) ≤ 320 ∧ (320 : ℚ) ≤ 2 ^ 32 ∧ (1 : ℚ) ≤ 240 ∧ (240 : ℚ) ≤ 2 ^ 32) ∧
    |(resizeImageDouble 424 318 320 240).1 * 318 - (resizeImageDouble 424 318 320 240).2 * 424|
      ≤ (resizeImageDouble 424 318 320 240).2 * 424 / 2 ^ 50 :=
  ⟨by norm_num,
   (resizeImageDouble_aspect_ratio 424 318 320 240 (by norm_num) (by norm_num) (by norm_num)
      (by norm_num) (by norm_num) (by norm_num) (by norm_num) (by norm_num)).1⟩

/-- C3, counterexample: the data URL of the bytes `hi` with the MIME type
`text/plain;charset=utf-8` decodes to a blob of type `text/plain`, and the data URL
of one byte with the MIME type `IMAGE/PNG` to a blob of type `image/png`: the type
is not the one the URL was built with. -/
theorem dataURLtoBlob_drops_mime_parameters :
    (dataURLtoBlob ("data:" ++ "text/plain;charset=utf-8" ++ ";base64," ++
          String.mk (base64Encode [104, 105]))
        = .ok { bytes := [104, 105], type := "text/plain" } ∧
      dataURLtoBlob ("data:" ++ "text/plain;charset=utf-8" ++ ";base64," ++
          String.mk (base64Encode [104, 105]))
        ≠ .ok { bytes := [104, 105], type := "text/plain;charset=utf-8" }) ∧
    (dataURLtoBlob ("data:" ++ "IMAGE/PNG" ++ ";base64," ++ String.mk (base64Encode [137]))
        = .ok { bytes := [137], type := "image/png" } ∧
      dataURLtoBlob ("data:" ++ "IMAGE/PNG" ++ ";base64," ++ String.mk (base64Encode [137]))
        ≠ .ok { bytes := [137], type := "IMAGE/PNG" }) := by
  decide

/-- C3 (amended): for every byte buffer `b` and every MIME type `m` of printable
ASCII characters without upper-case letters, `,` and `;`, decoding the data URL
`"data:" + m + ";base64," + base64(b)` with `dataURLtoBlob` yields a blob whose
bytes are exactly `b` and whose type is exactly `m`. -/
theorem data_url_round_trip (b : List Nat) (m : String) (hb : ∀ x ∈ b, x < 256)
    (hm : ∀ c ∈ m.data, plainMimeChar c = true) :
    dataURLtoBlob ("data:" ++ m ++ ";base64," ++ String.mk (base64Encode b))
      = .ok { bytes := b, type := m } :=
  dataURLtoBlob_toDataURL m b hb hm

/-- The round trip for four bytes and the MIME type `image/jpeg`. -/
theorem data_url_round_trip_witness :
    dataURLtoBlob ("data:" ++ "image/jpeg" ++ ";base64," ++
        String.mk (base64Encode [255, 216, 255, 0]))
      = .ok { bytes := [255, 216, 255, 0], type := "image/jpeg" } :=
  data_url_round_trip [255, 216, 255, 0] "image/jpeg" (by decide) (by decide)

/-- C4: with `T = "Prediction: " + c + "\nConfidence Score: " + s + "%"` for the
prediction held, after an upload `handleDownload` saves the single text file
`results.txt` with content exactly `T`; after a capture with the button
"Capture Image" it saves the archive `results_and_image.zip` with exactly two
entries, `results.txt` with content `T` and `image.jpeg` with the bytes of the
captured frame. -/
theorem handleDownload_output (numberToString : ℚ → String) (c : String) (s : ℚ) (w : World)
    (outcome : PredictOutcome) :
    (∀ (file : File) (resized : String),
      (handleImageUpload (some file) resized outcome w).session.prediction = some ⟨c, s⟩ →
      handleDownload numberToString (handleImageUpload (some file) resized outcome w).session
        = .ok (some (.textFile "results.txt"
            ("Prediction: " ++ c ++ "\nConfidence Score: " ++ numberToString s ++ "%")))) ∧
    (∀ frame : List Nat, (∀ x ∈ frame, x < 256) → captureVisible w.session = true →
      (captureImage (toDataURL "image/jpeg" frame) outcome w).session.prediction = some ⟨c, s⟩ →
      handleDownload numberToString (captureImage (toDataURL "image/jpeg" frame) outcome w).session
        = .ok (some (.archive "results_and_image.zip"
            [("results.txt", .text
                ("Prediction: " ++ c ++ "\nConfidence Score: " ++ numberToString s ++ "%")),
             ("image.jpeg", .blob { bytes := frame, type := "image/jpeg" })]))) := by
  constructor
  · intro file resized hp
    rw [handleImageUpload_session] at hp ⊢
    simp only at hp
    simp only [handleDownload, hp, resultsText]
  · intro frame hframe hvis hp
    have hact : w.session.isCameraActive = true := by
      simp only [captureVisible, Bool.and_eq_true] at hvis
      exact hvis.1.1.1
    have hsel : w.session.selectedImage = none := by
      simp only [captureVisible, Bool.and_eq_true, Bool.not_eq_true'] at hvis
      cases hs : w.session.selectedImage with
      | none => rfl
      | some f => rw [hs] at hvis; simp at hvis
    have hblob := dataURLtoBlob_toDataURL "image/jpeg" frame hframe (by decide)
    have hsel' : (stopCamera w).session.selectedImage = none := by
      unfold stopCamera
      split <;> simpa using hsel
    rw [captureImage_session _ _ _ hact] at hp ⊢
    simp only [hblob] at hp ⊢
    simp only [handleDownload, hp, hsel', hblob, resultsText, List.singleton_append]

/-- Scenarios B and C: the prediction `benign`, 92.5 on the upload path and on the
camera path. -/
theorem handleDownload_output_witness :
    handleDownload (fun _ => "92.5")
        (handleImageUpload (some ⟨"mole.jpg", "image/jpeg"⟩) "data:image/jpeg;base64,AAAA"
          (.response 200 ⟨"benign", 185 / 2⟩) initial).session
      = .ok (some (.textFile "results.txt" "Prediction: benign\nConfidence Score: 92.5%")) ∧
    handleDownload (fun _ => "92.5")
        (captureImage (toDataURL "image/jpeg" [255, 216, 255])
          (.response 200 ⟨"benign", 185 / 2⟩) (run initial [.toggleCamera true])).session
      = .ok (some (.archive "results_and_image.zip"
          [("results.txt", .text "Prediction: benign\nConfidence Score: 92.5%"),
           ("image.jpeg", .blob { bytes := [255, 216, 255], type := "image/jpeg" })])) :=
  ⟨(handleDownload_output (fun _ => "92.5") "benign" (185 / 2) initial
      (.response 200 ⟨"benign", 185 / 2⟩)).1 ⟨"mole.jpg", "image/jpeg"⟩
      "data:image/jpeg;base64,AAAA" rfl,
   (handleDownload_output (fun _ => "92.5") "benign" (185 / 2) (run initial [.toggleCamera true])
      (.response 200 ⟨"benign", 185 / 2⟩)).2 [255, 216, 255] (by decide) rfl rfl⟩

/-- C5, the code at the failing input: after a successful upload, a second upload
whose predict call answers 500 leaves the prediction of the first upload in place. -/
theorem upload_failure_keeps_prediction :
    (run initial
      [.upload (some ⟨"first.jpg", "image/jpeg"⟩) "data:image/jpeg;base64,AAAA"
          (.response 200 ⟨"benign", 185 / 2⟩),
       .upload (some ⟨"second.jpg", "image/jpeg"⟩) "data:image/jpeg;base64,AQID"
          (.response 500 ⟨"", 0⟩)]).session.prediction
      = some ⟨"benign", 185 / 2⟩ := by
  rfl

/-- C6, counterexample: after an upload, and after a capture, whose predict call is
rejected, the component state differs from the state before the event. -/
theorem failed_predict_not_rolled_back :
    (handleImageUpload (some ⟨"mole.jpg", "image/jpeg"⟩) "data:image/jpeg;base64,AAAA"
        .rejected initial).session ≠ initial.session ∧
    (captureImage "data:image/jpeg;base64,AAAA" .rejected
        (run initial [.toggleCamera true])).session
      ≠ (run initial [.toggleCamera true]).session := by
  constructor
  · intro h
    have := congrArg Session.selectedImage h
    revert this
    decide
  · intro h
    have := congrArg Session.isCameraActive h
    revert this
    decide

/-- C6 (amended): when the predict call fails, `handleImageUpload` changes nothing
but `selectedImage` (the chosen file), `capturedImage` (`null`) and `resizedImage`
(the resized data URL); `captureImage`, run with the camera active, leaves what
`stopCamera` leaves, the held stream stopped and out of the live streams, `stream`
null and `isCameraActive` false, with the captured data URL in `capturedImage` and
`resizedImage`, and `prediction`, `isRetakeMode` and `selectedImage` as before the
event; run without the camera it does nothing. -/
theorem failed_predict_keeps_acquisition (w : World) (file : File)
    (resizedImageDataURL capturedDataURL : String) (outcome : PredictOutcome)
    (h : outcome.result = none) :
    (handleImageUpload (some file) resizedImageDataURL outcome w
        = { w with session := { w.session with selectedImage := some file, capturedImage := none,
                                               resizedImage := some resizedImageDataURL } }) ∧
    (w.session.isCameraActive = true →
      captureImage capturedDataURL outcome w
        = { stopCamera w with
            session := { (stopCamera w).session with capturedImage := some capturedDataURL,
                                                     resizedImage := some capturedDataURL } } ∧
      (captureImage capturedDataURL outcome w).session.stream = none ∧
      (∀ held, w.session.stream = some held →
        held ∉ (captureImage capturedDataURL outcome w).liveStreams ∧
        (captureImage capturedDataURL outcome w).liveStreams
          = w.liveStreams.filter (fun live => live != held) ∧
        (captureImage capturedDataURL outcome w).session.isCameraActive = false) ∧
      (captureImage capturedDataURL outcome w).session.prediction = w.session.prediction ∧
      (captureImage capturedDataURL outcome w).session.isRetakeMode = w.session.isRetakeMode ∧
      (captureImage capturedDataURL outcome w).session.selectedImage
        = w.session.selectedImage) ∧
    (w.session.isCameraActive = false → captureImage capturedDataURL outcome w = w) := by
  obtain ⟨⟨stream, active, captured, selected, resized, prediction, retake⟩, live, next⟩ := w
  refine ⟨?_, ?_, ?_⟩
  · unfold handleImageUpload
    simp only [h]
    cases dataURLtoBlob resizedImageDataURL <;> rfl
  · intro ha
    simp only at ha
    subst ha
    have hc : captureImage capturedDataURL outcome
        ⟨⟨stream, true, captured, selected, resized, prediction, retake⟩, live, next⟩
        = { stopCamera ⟨⟨stream, true, captured, selected, resized, prediction, retake⟩,
                live, next⟩ with
            session :=
              { (stopCamera ⟨⟨stream, true, captured, selected, resized, prediction, retake⟩,
                  live, next⟩).session with
                capturedImage := some capturedDataURL, resizedImage := some capturedDataURL } } := by
      unfold captureImage stopCamera
      simp only [h]
      cases stream <;> cases dataURLtoBlob capturedDataURL <;> rfl
    refine ⟨hc, ?_⟩
    rw [hc]
    cases stream with
    | none =>
      refine ⟨rfl, ?_, rfl, rfl, rfl⟩
      intro held hh
      cases hh
    | some st =>
      refine ⟨rfl, ?_, rfl, rfl, rfl⟩
      intro held hh
      simp only [Option.some.injEq] at hh
      subst hh
      refine ⟨?_, rfl, rfl⟩
      simp [stopCamera]
  · intro ha
    simp only at ha
    subst ha
    rfl

/-- A rejected predict call after an upload and after a capture, with the camera
held. -/
theorem failed_predict_keeps_acquisition_witness :
    PredictOutcome.result .rejected = none ∧
    (run initial [.toggleCamera true]).session.isCameraActive = true ∧
    (handleImageUpload (some ⟨"mole.jpg", "image/jpeg"⟩) "data:image/jpeg;base64,AAAA" .rejected
        (run initial [.toggleCamera true]))
      = { run initial [.toggleCamera true] with
          session :=
            { (run initial [.toggleCamera true]).session with
              selectedImage := some ⟨"mole.jpg", "image/jpeg"⟩, capturedImage := none,
              resizedImage := some "data:image/jpeg;base64,AAAA" } } ∧
    (captureImage "data:image/jpeg;base64,AQID" .rejected
        (run initial [.toggleCamera true])).session.stream = none :=
  ⟨rfl, rfl,
   (failed_predict_keeps_acquisition (run initial [.toggleCamera true])
      ⟨"mole.jpg", "image/jpeg"⟩ "data:image/jpeg;base64,AAAA" "data:image/jpeg;base64,AQID"
      .rejected rfl).1,
   ((failed_predict_keeps_acquisition (run initial [.toggleCamera true])
      ⟨"mole.jpg", "image/jpeg"⟩ "data:image/jpeg;base64,AAAA" "data:image/jpeg;base64,AQID"
      .rejected rfl).2.1 rfl).2.1⟩

/-- C7, the code at the failing input: two clicks on the camera button before
`getUserMedia` settles start `startCamera` twice, `isCameraActive` being false at
both clicks; when both calls resolve two camera streams are live while `stream`
holds only the second, and a further click (Stop Camera) stops the second and
leaves the first live with `stream` null and `isCameraActive` false. -/
theorem double_click_holds_two_cameras :
    ((cameraRun ⟨initial, 0⟩ [.click, .click, .settle true, .settle true]).world.liveStreams
        = [1, 0] ∧
      (cameraRun ⟨initial, 0⟩
        [.click, .click, .settle true, .settle true]).world.liveStreams.length = 2 ∧
      (cameraRun ⟨initial, 0⟩ [.click, .click, .settle true, .settle true]).world.session.stream
        = some 1 ∧
      (cameraRun ⟨initial, 0⟩
        [.click, .click, .settle true, .settle true]).world.session.isCameraActive = true) ∧
    ((cameraRun ⟨initial, 0⟩
        [.click, .click, .settle true, .settle true, .click]).world.liveStreams = [0] ∧
      (cameraRun ⟨initial, 0⟩
        [.click, .click, .settle true, .settle true, .click]).world.session.stream = none ∧
      (cameraRun ⟨initial, 0⟩
        [.click, .click, .settle true, .settle true, .click]).world.session.isCameraActive
        = false) := by
  decide

/-- C8, the code at the failing input: with the camera held, an upload with a file
chosen leaves `stream` non-null, `isCameraActive` true and the camera stream live. -/
theorem upload_keeps_camera_held :
    ((run initial [.toggleCamera true]).session.stream ≠ none ∧
      (run initial [.toggleCamera true]).session.isCameraActive = true) ∧
    ((run initial [.toggleCamera true,
        .upload (some ⟨"mole.jpg", "image/jpeg"⟩) "data:image/jpeg;base64,AAAA"
          (.response 200 ⟨"benign", 185 / 2⟩)]).session.stream ≠ none ∧
      (run initial [.toggleCamera true,
        .upload (some ⟨"mole.jpg", "image/jpeg"⟩) "data:image/jpeg;base64,AAAA"
          (.response 200 ⟨"benign", 185 / 2⟩)]).session.isCameraActive = true ∧
      (run initial [.toggleCamera true,
        .upload (some ⟨"mole.jpg", "image/jpeg"⟩) "data:image/jpeg;base64,AAAA"
          (.response 200 ⟨"benign", 185 / 2⟩)]).liveStreams = [0]) := by
  decide

/-- C9, counterexample: the strings `data:text/plain;charset=utf-8,AAAA` (a data
URL that is not base64) and `x:y;,AAAA` do not have the shape
`data:<mime>;base64,<payload>`, and `dataURLtoBlob` returns a blob for each. -/
theorem dataURLtoBlob_accepts_other_shape :
    (¬ DataURLShape "data:text/plain;charset=utf-8,AAAA" ∧
      dataURLtoBlob "data:text/plain;charset=utf-8,AAAA"
        = .ok { bytes := [0, 0, 0], type := "text/plain" }) ∧
    (¬ DataURLShape "x:y;,AAAA" ∧
      dataURLtoBlob "x:y;,AAAA" = .ok { bytes := [0, 0, 0], type := "y" }) := by
  refine ⟨⟨?_, by decide⟩, ⟨?_, by decide⟩⟩
  · rintro ⟨mime, payload, h, -⟩
    have : 'b' ∈ "data:text/plain;charset=utf-8,AAAA".data := by rw [h]; simp
    revert this
    decide
  · rintro ⟨mime, payload, h, -⟩
    simp at h

/-- C9 (amended): `dataURLtoBlob` fails with an error for every string that does not
have the shape it checks: a `:` and a later `;` with no line terminator in between
before the first comma, and an accepted base64 payload between the first comma and
the second comma or the end. -/
theorem dataURLtoBlob_rejects (s : String) (h : ¬ AcceptedShape s) :
    ∃ e, dataURLtoBlob s = .error e := by
  obtain ⟨piece, pieces, h1, h2, h3⟩ := split_spec ',' s.data
  unfold dataURLtoBlob
  simp only [h1, List.headD_cons]
  cases hm : matchMime piece with
  | none => exact ⟨_, rfl⟩
  | some mime =>
    obtain ⟨pre, mid, e, hl⟩ := matchMime_some piece mime hm
    rcases h3 with ⟨_, rfl⟩ | ⟨t, ht, rfl⟩
    · simp only [List.get?_cons_succ, List.get?_nil, atob_undefined]
      exact ⟨_, rfl⟩
    · obtain ⟨payload, more, g1, g2, g3⟩ := split_spec ',' t
      simp only [g1, List.get?_cons_succ, List.get?_cons_zero, atob, Option.getD_some]
      cases hd : forgivingBase64Decode payload with
      | none => exact ⟨_, rfl⟩
      | some bytes =>
        exfalso
        apply h
        rcases g3 with ⟨rfl, _⟩ | ⟨t', rfl, _⟩
        · exact ⟨pre, mime, mid, t, [], by simp [ht, e], by rw [← e]; exact h2, g2,
            Or.inl rfl, hl, by simp [hd]⟩
        · exact ⟨pre, mime, mid, payload, ',' :: t', by simp [ht, e], by rw [← e]; exact h2, g2,
            Or.inr ⟨t', rfl⟩, hl, by simp [hd]⟩

/-- The string `data:,` is rejected. -/
theorem dataURLtoBlob_rejects_witness :
    ¬ AcceptedShape "data:," ∧ ∃ e, dataURLtoBlob "data:," = .error e := by
  have h : ¬ AcceptedShape "data:," := by
    rintro ⟨pre, mime, mid, payload, rest, h, -⟩
    have : ';' ∈ "data:,".data := by rw [h]; simp
    revert this
    decide
  exact ⟨h, dataURLtoBlob_rejects _ h⟩

/-- C10, the code at the failing input: after a successful upload and a camera start
that the device refuses, `prediction` is set while `selectedImage` and
`capturedImage` are null, and `handleDownload` throws a `TypeError`. -/
theorem download_throws_after_denied_camera (numberToString : ℚ → String) :
    (run initial
      [.upload (some ⟨"mole.jpg", "image/jpeg"⟩) "data:image/jpeg;base64,AAAA"
          (.response 200 ⟨"benign", 185 / 2⟩),
       .toggleCamera false]).session.prediction = some ⟨"benign", 185 / 2⟩ ∧
    (run initial
      [.upload (some ⟨"mole.jpg", "image/jpeg"⟩) "data:image/jpeg;base64,AAAA"
          (.response 200 ⟨"benign", 185 / 2⟩),
       .toggleCamera false]).session.selectedImage = none ∧
    (run initial
      [.upload (some ⟨"mole.jpg", "image/jpeg"⟩) "data:image/jpeg;base64,AAAA"
          (.response 200 ⟨"benign", 185 / 2⟩),
       .toggleCamera false]).session.capturedImage = none ∧
    handleDownload numberToString (run initial
      [.upload (some ⟨"mole.jpg", "image/jpeg"⟩) "data:image/jpeg;base64,AAAA"
          (.response 200 ⟨"benign", 185 / 2⟩),
       .toggleCamera false]).session = .error .typeError :=
  ⟨rfl, rfl, rfl, rfl⟩

end SkinDetector
